import Mathlib

/-!
Shallow embedding of the trial-balance reconciliation engine of
`src/excel_processor.py` (class `TrialBalanceProcessor`), together with
theorems settling the specification claims about it.

Conventions of the embedding:
* Python cell values (`None` | `str` | number | `bool`) become `CellVal`.
* Python string operations are modelled over `List Char` so that every
  definition evaluates by kernel reduction (`String.trim`/`String.map` do
  not reduce); the models are faithful for the ASCII data the claims use.
* Fallible spreadsheet reads (`sheet.range(...).value` raising through the
  automation layer) are modelled with `Except Unit`.
* The external similarity library (`rapidfuzz`/`fuzzywuzzy` `ratio`) is a
  parameter `sim : String → String → Rat`; its documented range 0..100 is
  taken as a hypothesis only where a claim needs it.
* Machine floats carry only exactly-representable comparison results here
  (scores `100.0`, `-1.0`, integer thresholds); they are modelled as `Rat`.
-/

/-- A spreadsheet cell value as delivered by the automation layer:
Python `None`, a string, a number (modelled as an integer; no claim
depends on fractional amounts), or a boolean. -/
inductive CellVal where
  | none
  | str (s : String)
  | num (n : Int)
  | bool (b : Bool)
  deriving DecidableEq, Repr

/-- Python `str.strip()`: drop leading and trailing whitespace. -/
def pyStrip (s : String) : String :=
  ⟨((s.data.dropWhile Char.isWhitespace).reverse.dropWhile Char.isWhitespace).reverse⟩

/-- Python `str.lower()` (ASCII model, all names in scope are ASCII). -/
def pyLower (s : String) : String := ⟨s.data.map Char.toLower⟩

/-- Python `str.replace('|', '')`: remove every `'|'`. -/
def stripPipes (s : String) : String := ⟨s.data.filter (fun c => c != '|')⟩

/-- Python `name.startswith('^')`. -/
def startsCaret (s : String) : Bool :=
  match s.data with
  | c :: _ => c == '^'
  | [] => false

/-- The clean key `account_name.replace('|', '').strip().lower()` used by
`perform_fuzzy_matching` (lines 228 and 233). -/
def cleanKey (s : String) : String := pyLower (pyStrip (stripPipes s))

/-- The key `account_name.lower().strip()` that `update_trial_balance` uses for
the new-accounts set difference (lines 364 and 369); note: no `'|'` removal. -/
def lowerStrip (s : String) : String := pyStrip (pyLower s)

/-- Python `str(v)`; downstream only its non-emptiness after `strip()` is
consulted, so the integer rendering stands in for the float one. -/
def CellVal.pyStr : CellVal → String
  | .none => "None"
  | .str s => s
  | .num n => toString n
  | .bool b => if b then "True" else "False"

/-- Python `isinstance(v, str)`. -/
def CellVal.isStr : CellVal → Bool
  | .str _ => true
  | _ => false

/-- Python `len(name)` — only reached when `name` is a string (the raw,
untrimmed length). -/
def CellVal.strLen : CellVal → Nat
  | .str s => s.length
  | _ => 0

/-- Python `name.startswith('^')` lifted to cell values (only reached for strings). -/
def CellVal.caret : CellVal → Bool
  | .str s => startsCaret s
  | _ => false

/-! ## Column addressing -/

/-- Fuel-indexed body of the `while col_idx >= 0` loop of
`col_index_to_letter` (lines 166-172): prepend `chr(col_idx % 26 + ord('A'))`
and continue with `col_idx // 26 - 1` (the loop stops when that is negative).
`fuel = n + 1` always suffices because the argument strictly decreases. -/
def cilAux : Nat → Nat → List Char
  | 0, _ => []
  | fuel+1, n =>
    if n < 26 then [Char.ofNat (n % 26 + 65)]
    else cilAux fuel (n / 26 - 1) ++ [Char.ofNat (n % 26 + 65)]

/-- The helper `col_index_to_letter` (lines 166-172): 0-based column index to letter. -/
def col_index_to_letter (n : Nat) : String := ⟨cilAux (n+1) n⟩

/-- The source function takes a Python `int`; for a negative index the
`while` guard fails immediately and the empty string is returned. -/
def colIndexToLetterInt (i : Int) : String :=
  if i < 0 then "" else col_index_to_letter i.toNat

/-- One step of the accumulation of `column_letter_to_index`:
`result = result * 26 + (ord(char) - ord('A') + 1)` on the upper-cased
character. -/
def ltiStep (acc : Int) (c : Char) : Int :=
  acc * 26 + (((c.toUpper.toNat : Int) - 65) + 1)

/-- The method `column_letter_to_index` (lines 471-476): the accumulation over
`col_letter.upper()`, then `result - 1`.  There is no validation of the
characters. -/
def column_letter_to_index (s : String) : Int :=
  (s.data.foldl ltiStep 0) - 1

/-! ## Sheets and extraction -/

/-- The grid the extractor reads: `used_range` presence, its last row, and
per-address value and boldness reads, each of which may raise inside the
automation layer (modelled by `Except Unit`). -/
structure Sheet where
  used : Bool
  lastRow : Nat
  cellVal : String → Except Unit CellVal
  cellBold : String → Except Unit Bool

/-- The method `is_cell_bold` (lines 27-40): a failing format read is swallowed by the
bare `except:` and reported as not bold. -/
def is_cell_bold (sheet : Sheet) (addr : String) : Bool :=
  match sheet.cellBold addr with
  | .ok b => b
  | .error _ => false

/-- The cell address `f"{col_index_to_letter(c)}{row}"`. -/
def cellAddr (col : Int) (row : Nat) : String :=
  colIndexToLetterInt col ++ toString row

/-- The short-circuiting skip condition of lines 185-191.  Note that
`len(name)` is the raw, untrimmed length. -/
def skipRow (sheet : Sheet) (addr : String) (name : CellVal) : Bool :=
  name == CellVal.none
    || pyStrip name.pyStr == ""
    || is_cell_bold sheet addr
    || !name.isStr
    || decide (name.strLen ≤ 5)
    || name.caret

/-- One account record (lines 206-211): 0-based `row_index`, 1-based
`excel_row`, the raw account name, and the `amount_j` values in the order of
`amount_cols` (a bold amount cell is recorded as `None`). -/
structure Account where
  row_index : Nat
  excel_row : Nat
  account_name : String
  amounts : List CellVal
  deriving DecidableEq, Repr

/-- Read one amount cell (lines 195-204): the value read may raise; a bold
amount cell is recorded as `None` (absent), an empty one is kept as read. -/
def readAmount (sheet : Sheet) (row : Nat) (col : Int) : Except Unit CellVal :=
  let addr := cellAddr col row
  match sheet.cellVal addr with
  | .error e => .error e
  | .ok v => .ok (if is_cell_bold sheet addr then CellVal.none else v)

/-- Process one row of the extraction loop (lines 177-211). -/
def extractRow (sheet : Sheet) (account_col : Int) (amount_cols : List Int)
    (row : Nat) : Except Unit (Option Account) :=
  let addr := cellAddr account_col row
  match sheet.cellVal addr with
  | .error e => .error e
  | .ok name =>
    if skipRow sheet addr name then .ok Option.none
    else
      match amount_cols.mapM (readAmount sheet row) with
      | .error e => .error e
      | .ok amounts => .ok (some ⟨row - 1, row, name.pyStr, amounts⟩)

/-- The whole row loop, starting at `start` for `k` rows; the first raising
read aborts the loop (the `try` of line 150 covers the entire function). -/
def extractRows (sheet : Sheet) (acol : Int) (acols : List Int) :
    Nat → Nat → Except Unit (List Account)
  | _, 0 => .ok []
  | row, k+1 =>
    match extractRow sheet acol acols row with
    | .error e => .error e
    | .ok r =>
      match extractRows sheet acol acols (row+1) k with
      | .error e => .error e
      | .ok rest =>
        .ok (match r with
             | some a => a :: rest
             | Option.none => rest)

/-- Python `max(2, start_row) if start_row is not None else 2` (line 160). -/
def rowStart (start_row : Option Nat) : Nat :=
  match start_row with
  | some r => max 2 r
  | Option.none => 2

/-- Python `min(last_row, end_row) if end_row is not None else last_row` (line 161). -/
def rowEnd (sheet : Sheet) (end_row : Option Nat) : Nat :=
  match end_row with
  | some r => min sheet.lastRow r
  | Option.none => sheet.lastRow

/-- The method `extract_accounts_from_sheet` (lines 144-217).  Everything runs under one
`try:`; any exception makes the function log and return `[]` (lines 215-217). -/
def extract_accounts_from_sheet (sheet : Sheet) (account_col : Int)
    (amount_cols : List Int) (start_row end_row : Option Nat) : List Account :=
  let body : Except Unit (List Account) :=
    if !sheet.used then .ok []
    else
      let rs := rowStart start_row
      let re := rowEnd sheet end_row
      if re < rs then .ok []
      else extractRows sheet account_col amount_cols rs (re + 1 - rs)
  match body with
  | .ok l => l
  | .error _ => []

/-! ## Fuzzy matching -/

/-- One emitted match (lines 237-243 / 256-262). -/
structure MatchRecord where
  source_account : Account
  target_account : Account
  match_score : Rat
  source_name_cleaned : String
  target_name_cleaned : String
  deriving DecidableEq, Repr

/-- The `target_index` / `cleaned_targets` construction of lines 225-230:
both hold the pair `(clean key, account)` for every target, in target order. -/
def buildIndex (ts : List Account) : List (String × Account) :=
  ts.map (fun t => (cleanKey t.account_name, t))

/-- Python dict assignment `target_index[clean_t] = t` in a loop: a later
binding for the same key overwrites an earlier one, so lookup returns the
last binding. -/
def dictGet (idx : List (String × Account)) (k : String) : Option Account :=
  idx.foldl (fun acc p => if p.1 == k then some p.2 else acc) Option.none

/-- The fuzzy scan of lines 247-253: track `(best_score, best_target)`,
updating only on a strict improvement (`score > best_score`), so the first
target attaining the maximum is kept. -/
def bestTarget (sim : String → String → Rat) (cs : String) :
    List (String × Account) → Rat → Option Account → Rat × Option Account
  | [], best, bt => (best, bt)
  | (ct, t) :: rest, best, bt =>
    let score := sim cs ct
    if best < score then bestTarget sim cs rest score (some t)
    else bestTarget sim cs rest best bt

/-- The per-source body of the matching loop (lines 232-262): exact-match
fast path through the clean-key index, else the fuzzy scan guarded by
`best_target is not None and best_score >= self.fuzzy_threshold`. -/
def matchSource (sim : String → String → Rat) (thr : Rat)
    (ts : List Account) (s : Account) : Option MatchRecord :=
  let cs := cleanKey s.account_name
  match dictGet (buildIndex ts) cs with
  | some t => some ⟨s, t, 100, cs, cs⟩
  | Option.none =>
    match bestTarget sim cs (buildIndex ts) (-1) Option.none with
    | (best, some t) =>
      if thr ≤ best then
        some ⟨s, t, best, cs, pyStrip (stripPipes t.account_name)⟩
      else Option.none
    | (_, Option.none) => Option.none

/-- The method `perform_fuzzy_matching` (lines 219-264): one pass over the sources in
order, appending the per-source result when there is one. -/
def perform_fuzzy_matching (sim : String → String → Rat) (thr : Rat)
    (source_accounts target_accounts : List Account) : List MatchRecord :=
  source_accounts.filterMap (matchSource sim thr target_accounts)

/-! ## The reconciliation write loop, bulk-mutation scope, new accounts -/

/-- The cells of the sheet being updated: 1-based row, 1-based column
(`update_sheet.cells(row, col)`). -/
abbrev Grid := Nat → Int → CellVal

/-- A single cell write `update_sheet.cells(row, col).value = v`. -/
def writeCell (g : Grid) (row : Nat) (col : Int) (v : CellVal) : Grid :=
  fun r c => if r = row ∧ c = col then v else g r c

/-- Python `target_amounts.get('amount_{j+1}')`: positional lookup of the j-th
amount, `None` when the key is missing. -/
def amtGet (l : List CellVal) (j : Nat) : CellVal := l.getD j CellVal.none

/-- The body of the write loop for one match (lines 342-354):
`amount_1` goes to the current-year column, `amount_2` to the prior-year
column, each write skipped when the amount `is None`. -/
def applyMatch (cur prior : Int) (g : Grid) (m : MatchRecord) : Grid :=
  let row := m.source_account.excel_row
  let amt1 := amtGet m.target_account.amounts 0
  let g1 := if amt1 = CellVal.none then g else writeCell g row cur amt1
  let amt2 := amtGet m.target_account.amounts 1
  if amt2 = CellVal.none then g1 else writeCell g1 row prior amt2

/-- The whole write loop over the matches, in match order. -/
def writeMatches (cur prior : Int) (g : Grid) (ms : List MatchRecord) : Grid :=
  ms.foldl (applyMatch cur prior) g

/-- The three application attributes handled by the bulk-mutation scope.
`getattr(app, name, None)` yields `none` when the attribute is absent, in
which case the scope neither suspends nor restores that attribute. -/
structure AppState where
  screen_updating : Option CellVal
  calculation : Option CellVal
  display_alerts : Option CellVal
  deriving DecidableEq, Repr

/-- The bulk-mutation scope of lines 326-361: capture the previous values,
suspend (screen updating off, alerts off, calculation manual) inside `try`,
run the body — which may itself end in an error — and restore each captured
attribute in `finally`, on every exit path. -/
def bulkScope (app0 : AppState) (body : Grid → Grid × Except Unit Nat)
    (g : Grid) : AppState × Grid × Except Unit Nat :=
  let prev_screen := app0.screen_updating
  let prev_calc := app0.calculation
  let prev_alerts := app0.display_alerts
  let a1 : AppState :=
    ⟨if prev_screen.isSome then some (CellVal.bool false) else prev_screen,
     app0.calculation, app0.display_alerts⟩
  let a2 : AppState :=
    ⟨a1.screen_updating, a1.calculation,
     if prev_alerts.isSome then some (CellVal.bool false) else a1.display_alerts⟩
  let a3 : AppState :=
    ⟨a2.screen_updating,
     if prev_calc.isSome then some (CellVal.str "manual") else a2.calculation,
     a2.display_alerts⟩
  let res := body g
  let f1 : AppState :=
    ⟨if prev_screen.isSome then prev_screen else a3.screen_updating,
     a3.calculation, a3.display_alerts⟩
  let f2 : AppState :=
    ⟨f1.screen_updating, f1.calculation,
     if prev_alerts.isSome then prev_alerts else f1.display_alerts⟩
  let f3 : AppState :=
    ⟨f2.screen_updating,
     if prev_calc.isSome then prev_calc else f2.calculation,
     f2.display_alerts⟩
  (f3, res.1, res.2)

/-- The new-accounts set difference of lines 363-371: collect the
`lower().strip()` names of the match targets, keep the reference accounts
whose `lower().strip()` name is not among them. -/
def computeNewAccounts (matchList : List MatchRecord)
    (correct_accounts : List Account) : List Account :=
  let matched_target_names :=
    matchList.map (fun m => lowerStrip m.target_account.account_name)
  correct_accounts.filter
    (fun c => !(matched_target_names.contains (lowerStrip c.account_name)))

/-- The three column letters supplied for a sheet. -/
structure ColMap where
  account : String
  current_year : String
  prior_year : String

/-- A row-range argument: `(start_row?, end_row?)` as taken from the range
dict; an absent dict is `(none, none)`. -/
abbrev RowRange := Option Nat × Option Nat

/-- An `end_row == 0` argument is normalised to `None` (lines 290-293). -/
def normEnd (r : Option Nat) : Option Nat :=
  if r = some 0 then Option.none else r

/-- The outcome of a run of `update_trial_balance` restricted to the data
the claims are about: the match list, the update counter, the new-accounts
list, the written grid, and the application state after the scope. -/
structure UpdateOutcome where
  matchList : List MatchRecord
  updates_made : Nat
  new_accounts : List Account
  grid : Grid
  app : AppState

/-- The reference-side extraction performed by `update_trial_balance`
(lines 306-312), exposed so theorems can name its result. -/
def updCorrectAccounts (wb : String → Sheet) (correct_sheet : String)
    (correct_cols : ColMap) (correct_range : RowRange) : List Account :=
  extract_accounts_from_sheet (wb correct_sheet)
    (column_letter_to_index correct_cols.account)
    [column_letter_to_index correct_cols.current_year,
     column_letter_to_index correct_cols.prior_year]
    correct_range.1 (normEnd correct_range.2)

/-- The method `update_trial_balance` (lines 266-396), covering the steps the claims
concern: column-letter conversion, extraction of both sheets (which happens
entirely before any write), fuzzy matching, the write loop inside the
bulk-mutation scope, and the new-accounts computation. -/
def update_trial_balance (sim : String → String → Rat) (thr : Rat)
    (wb : String → Sheet) (g0 : Grid) (app0 : AppState)
    (to_update_sheet correct_sheet : String)
    (to_update_cols correct_cols : ColMap)
    (to_update_range correct_range : RowRange) : UpdateOutcome :=
  let tu_acc := column_letter_to_index to_update_cols.account
  let tu_cur := column_letter_to_index to_update_cols.current_year
  let tu_pri := column_letter_to_index to_update_cols.prior_year
  let to_update_accounts :=
    extract_accounts_from_sheet (wb to_update_sheet) tu_acc [tu_cur, tu_pri]
      to_update_range.1 (normEnd to_update_range.2)
  let correct_accounts := updCorrectAccounts wb correct_sheet correct_cols correct_range
  let matchList := perform_fuzzy_matching sim thr to_update_accounts correct_accounts
  let current_col_num := tu_cur + 1
  let prior_col_num := tu_pri + 1
  let body : Grid → Grid × Except Unit Nat :=
    fun g => (writeMatches current_col_num prior_col_num g matchList,
              Except.ok matchList.length)
  let runScope := bulkScope app0 body g0
  let new_accounts := computeNewAccounts matchList correct_accounts
  ⟨matchList, matchList.length, new_accounts, runScope.2.1, runScope.1⟩

/-! ## Lemmas: column addressing -/

/-- The fuel of `cilAux` is irrelevant as long as it exceeds the index. -/
lemma cilAux_fuel : ∀ f1 f2 n, n < f1 → n < f2 → cilAux f1 n = cilAux f2 n := by
  intro f1
  induction f1 with
  | zero => intro f2 n h1 _; exact absurd h1 (Nat.not_lt_zero n)
  | succ g ih =>
    intro f2 n h1 h2
    cases f2 with
    | zero => exact absurd h2 (Nat.not_lt_zero n)
    | succ h =>
      simp only [cilAux]
      by_cases hn : n < 26
      · simp [hn]
      · simp only [hn, if_false]
        rw [ih h (n / 26 - 1) (by omega) (by omega)]

/-- The letters produced by `cilAux` lie in `A`..`Z`, on which
`str.upper()` is the identity. -/
lemma char_upper_val (k : Nat) (h1 : 65 ≤ k) (h2 : k ≤ 90) :
    ((Char.ofNat k).toUpper.toNat : Int) = k := by
  interval_cases k <;> decide

/-- Accumulating `column_letter_to_index`'s step over the letters of index
`n` yields `n + 1` (the bijective base-26 value, before the final `- 1`). -/
lemma foldl_cilAux : ∀ n : Nat, List.foldl ltiStep 0 (cilAux (n+1) n) = (n : Int) + 1 := by
  intro n
  induction n using Nat.strong_induction_on with
  | _ n ih =>
    by_cases hn : n < 26
    · simp only [cilAux, hn, if_true]
      rw [Nat.mod_eq_of_lt hn]
      simp only [List.foldl_cons, List.foldl_nil, ltiStep]
      rw [char_upper_val (n + 65) (by omega) (by omega)]
      push_cast
      ring
    · simp only [cilAux, hn, if_false]
      rw [cilAux_fuel n (n / 26 - 1 + 1) (n / 26 - 1) (by omega) (by omega)]
      rw [List.foldl_append]
      rw [ih (n / 26 - 1) (by omega)]
      simp only [List.foldl_cons, List.foldl_nil, ltiStep]
      rw [char_upper_val (n % 26 + 65) (by omega) (by omega)]
      push_cast
      omega

/-- C7 — Column addressing round-trip: for every index `0 ≤ i < 16384`,
converting the 0-based index to its column letter and back with
`column_letter_to_index` yields the index again; in particular index 25
maps to `"Z"` and index 26 to `"AA"`. -/
theorem column_roundtrip (i : Nat) (h : i < 16384) :
    column_letter_to_index (col_index_to_letter i) = i ∧
    col_index_to_letter 25 = "Z" ∧ col_index_to_letter 26 = "AA" := by
  refine ⟨?_, by decide, by decide⟩
  show (List.foldl ltiStep 0 (cilAux (i+1) i)) - 1 = (i : Int)
  rw [foldl_cilAux]
  ring

/-- Witness for C7 at the boundary index 26. -/
theorem column_roundtrip_witness :
    26 < 16384 ∧
    (column_letter_to_index (col_index_to_letter 26) = 26 ∧
     col_index_to_letter 25 = "Z" ∧ col_index_to_letter 26 = "AA") :=
  ⟨by decide, column_roundtrip 26 (by decide)⟩

/-- C8 counterexample — on the input `"@"`, whose character is outside
`A`-`Z`, `column_letter_to_index` does not fail at all: it returns the
index `-1` (the embedding is total exactly because lines 471-476 contain
no validation and raise nothing). -/
theorem letter_index_no_failure_counterexample :
    column_letter_to_index "@" = -1 := by decide

/-- C8 amended — `column_letter_to_index` never fails: for any
single-character input whose character stays outside `A`-`Z` after
upper-casing it still returns the unvalidated base-26 value
`ord(char) - 65`, which lies outside the valid single-letter index range
`0..25`, instead of raising any error. -/
theorem letter_index_unvalidated (c : Char)
    (h : ¬(65 ≤ c.toUpper.toNat ∧ c.toUpper.toNat ≤ 90)) :
    column_letter_to_index (String.singleton c) = (c.toUpper.toNat : Int) - 65 ∧
    (column_letter_to_index (String.singleton c) < 0 ∨
     25 < column_letter_to_index (String.singleton c)) := by
  have hv : column_letter_to_index (String.singleton c) = (c.toUpper.toNat : Int) - 65 := by
    show (List.foldl ltiStep 0 [c]) - 1 = _
    simp only [List.foldl_cons, List.foldl_nil, ltiStep]
    ring
  refine ⟨hv, ?_⟩
  rw [hv]
  omega

/-- Witness for C8 at the concrete invalid character `'@'`. -/
theorem letter_index_unvalidated_witness :
    ¬(65 ≤ '@'.toUpper.toNat ∧ '@'.toUpper.toNat ≤ 90) ∧
    (column_letter_to_index (String.singleton '@') = ('@'.toUpper.toNat : Int) - 65 ∧
     (column_letter_to_index (String.singleton '@') < 0 ∨
      25 < column_letter_to_index (String.singleton '@'))) :=
  ⟨by decide, letter_index_unvalidated '@' (by decide)⟩

/-! ## Lemmas: exact-match index -/

/-- The last element of a cons list. -/
lemma getLast?_cons_eq {A : Type} (a : A) (l : List A) :
    (a :: l).getLast? = some (l.getLast?.getD a) := by
  cases h : l.getLast? <;> simp_all [List.getLast?_cons]

/-- The overwrite fold behind `dictGet`: the last binding for a key wins,
whatever the initial accumulator. -/
lemma dictGet_foldl (k : String) :
    ∀ (l : List (String × Account)) (acc : Option Account),
      l.foldl (fun acc p => if p.1 == k then some p.2 else acc) acc =
        match (l.filter (fun p => p.1 == k)).getLast? with
        | some p => some p.2
        | Option.none => acc := by
  intro l
  induction l with
  | nil => intro acc; rfl
  | cons p l ih =>
    intro acc
    simp only [List.foldl_cons, List.filter_cons]
    cases hp : p.1 == k with
    | true =>
      simp only [if_true]
      rw [ih, getLast?_cons_eq]
      cases hl : (l.filter (fun p => p.1 == k)).getLast? <;> rfl
    | false =>
      simp only [Bool.false_eq_true, if_false]
      exact ih acc

/-- Looking up `dictGet` over the clean-key index returns the last target whose clean
key equals the looked-up key. -/
lemma dictGet_buildIndex (ts : List Account) (k : String) :
    dictGet (buildIndex ts) k =
      (ts.filter (fun t => cleanKey t.account_name == k)).getLast? := by
  unfold dictGet
  rw [dictGet_foldl]
  have hfm : (buildIndex ts).filter (fun p => p.1 == k) =
      (ts.filter (fun t => cleanKey t.account_name == k)).map
        (fun t => (cleanKey t.account_name, t)) := by
    unfold buildIndex
    rw [List.filter_map]
    rfl
  rw [hfm, List.getLast?_map]
  cases (ts.filter (fun t => cleanKey t.account_name == k)).getLast? <;> rfl

/-- A nonempty filter has a last element that belongs to the filter. -/
lemma getLast?_of_mem_filter {p : Account → Bool} {ts : List Account} {t0 : Account}
    (h : t0 ∈ ts) (hp : p t0 = true) :
    ∃ t, (ts.filter p).getLast? = some t ∧ t ∈ ts ∧ p t = true := by
  have hne : ts.filter p ≠ [] :=
    List.ne_nil_of_mem (List.mem_filter.mpr ⟨h, hp⟩)
  obtain ⟨t, ht⟩ := Option.ne_none_iff_exists'.mp
    (fun hc => hne (List.getLast?_eq_none_iff.mp hc))
  have htmem : t ∈ ts.filter p := by
    obtain ⟨hne2, heq⟩ := List.mem_getLast?_eq_getLast (ht ▸ rfl : t ∈ (ts.filter p).getLast?)
    exact heq ▸ List.getLast_mem hne2
  obtain ⟨h1, h2⟩ := List.mem_filter.mp htmem
  exact ⟨t, ht, h1, h2⟩

/-- C3 — Exact-match fast path: a source whose clean key equals the clean
key of some target is matched with score exactly 100 through the clean-key
index, the record is emitted by `perform_fuzzy_matching` for that source,
and the per-source result is identical under every similarity function —
the exact match never consults fuzzy similarity and beats any fuzzy
candidate. -/
theorem exact_match_fast_path (sim : String → String → Rat) (thr : Rat)
    (ss ts : List Account) (s : Account) (hs : s ∈ ss)
    (h : ∃ t ∈ ts, cleanKey t.account_name = cleanKey s.account_name) :
    ∃ t ∈ ts, cleanKey t.account_name = cleanKey s.account_name ∧
      matchSource sim thr ts s =
        some ⟨s, t, 100, cleanKey s.account_name, cleanKey s.account_name⟩ ∧
      (⟨s, t, 100, cleanKey s.account_name, cleanKey s.account_name⟩ : MatchRecord)
        ∈ perform_fuzzy_matching sim thr ss ts ∧
      ∀ sim2 : String → String → Rat,
        matchSource sim2 thr ts s = matchSource sim thr ts s := by
  obtain ⟨t0, ht0, hk0⟩ := h
  obtain ⟨t, hlast, htmem, htkey⟩ :=
    getLast?_of_mem_filter (p := fun t => cleanKey t.account_name == cleanKey s.account_name)
      ht0 (by simp [hk0])
  have hget : dictGet (buildIndex ts) (cleanKey s.account_name) = some t := by
    rw [dictGet_buildIndex]; exact hlast
  have hmatch : matchSource sim thr ts s =
      some ⟨s, t, 100, cleanKey s.account_name, cleanKey s.account_name⟩ := by
    simp only [matchSource]
    rw [hget]
  refine ⟨t, htmem, by simpa using htkey, hmatch, ?_, ?_⟩
  · exact List.mem_filterMap.mpr ⟨s, hs, hmatch⟩
  · intro sim2
    simp only [matchSource]
    rw [hget]

/-- Witness data for C3: the spec's own example, source `"Cash"` against
targets `"cash"` and `"Cash Equivalents"`. -/
def wSrcCash : Account := ⟨1, 2, "Cash", [CellVal.none, CellVal.none]⟩

def wTgtCash : Account := ⟨1, 2, "cash", [CellVal.num 1, CellVal.num 2]⟩

def wTgtCashEq : Account := ⟨2, 3, "Cash Equivalents", [CellVal.num 3, CellVal.num 4]⟩

def wSimZero : String → String → Rat := fun _ _ => 0

/-- Witness for C3 on the spec's example. -/
theorem exact_match_fast_path_witness :
    wSrcCash ∈ [wSrcCash] ∧
    (∃ t ∈ [wTgtCash, wTgtCashEq],
        cleanKey t.account_name = cleanKey wSrcCash.account_name) ∧
    (∃ t ∈ [wTgtCash, wTgtCashEq],
        cleanKey t.account_name = cleanKey wSrcCash.account_name ∧
        matchSource wSimZero 80 [wTgtCash, wTgtCashEq] wSrcCash =
          some ⟨wSrcCash, t, 100, cleanKey wSrcCash.account_name,
                cleanKey wSrcCash.account_name⟩ ∧
        (⟨wSrcCash, t, 100, cleanKey wSrcCash.account_name,
          cleanKey wSrcCash.account_name⟩ : MatchRecord)
          ∈ perform_fuzzy_matching wSimZero 80 [wSrcCash] [wTgtCash, wTgtCashEq] ∧
        ∀ sim2 : String → String → Rat,
          matchSource sim2 80 [wTgtCash, wTgtCashEq] wSrcCash =
            matchSource wSimZero 80 [wTgtCash, wTgtCashEq] wSrcCash) :=
  ⟨by decide, by decide,
   exact_match_fast_path wSimZero 80 [wSrcCash] [wTgtCash, wTgtCashEq] wSrcCash
     (by decide) (by decide)⟩

/-- C10 — Duplicate target clean keys: the clean-key index is built by
overwriting, so an exactly-matching source is bound to the **last** target
in target order whose clean key equals the source's clean key. -/
theorem duplicate_target_last_wins (sim : String → String → Rat) (thr : Rat)
    (ts : List Account) (s : Account)
    (h : ts.filter
      (fun t => cleanKey t.account_name == cleanKey s.account_name) ≠ []) :
    ∃ t, (ts.filter
        (fun t => cleanKey t.account_name == cleanKey s.account_name)).getLast?
          = some t ∧
      matchSource sim thr ts s =
        some ⟨s, t, 100, cleanKey s.account_name, cleanKey s.account_name⟩ := by
  obtain ⟨t, ht⟩ := Option.ne_none_iff_exists'.mp
    (fun hc => h (List.getLast?_eq_none_iff.mp hc))
  refine ⟨t, ht, ?_⟩
  simp only [matchSource]
  rw [dictGet_buildIndex, ht]

/-- Witness data for C10: two reference rows with the same clean key. -/
def wDupFirst : Account := ⟨1, 2, "Cash", [CellVal.num 1, CellVal.num 1]⟩

def wDupSecond : Account := ⟨2, 3, "cash ", [CellVal.num 2, CellVal.num 2]⟩

/-- Witness for C10: with duplicate targets `"Cash"` (row 2) and `"cash "`
(row 3), the exact match binds to the row-3 target. -/
theorem duplicate_target_last_wins_witness :
    ([wDupFirst, wDupSecond].filter
      (fun t => cleanKey t.account_name == cleanKey wSrcCash.account_name) ≠ []) ∧
    (∃ t, ([wDupFirst, wDupSecond].filter
        (fun t => cleanKey t.account_name == cleanKey wSrcCash.account_name)).getLast?
          = some t ∧
      matchSource wSimZero 80 [wDupFirst, wDupSecond] wSrcCash =
        some ⟨wSrcCash, t, 100, cleanKey wSrcCash.account_name,
              cleanKey wSrcCash.account_name⟩) :=
  ⟨by decide,
   duplicate_target_last_wins wSimZero 80 [wDupFirst, wDupSecond] wSrcCash (by decide)⟩

/-! ## Lemmas: the fuzzy scan -/

/-- Characterisation of the fuzzy scan over the cleaned targets: the result
either keeps the incoming accumulator (when nothing beats it), or is the
score and target of the first list element attaining the running maximum:
every element is bounded by the result, and every element strictly before
the chosen one scores strictly less. -/
lemma bestTarget_spec (sim : String → String → Rat) (cs : String) :
    ∀ (ts : List Account) (b : Rat) (bt : Option Account),
      (∀ t ∈ ts, sim cs (cleanKey t.account_name) ≤
        (bestTarget sim cs (buildIndex ts) b bt).1) ∧
      b ≤ (bestTarget sim cs (buildIndex ts) b bt).1 ∧
      ((bestTarget sim cs (buildIndex ts) b bt = (b, bt) ∧
        ∀ t ∈ ts, sim cs (cleanKey t.account_name) ≤ b) ∨
       (∃ l1 t0 l2, ts = l1 ++ t0 :: l2 ∧
         (bestTarget sim cs (buildIndex ts) b bt).1 = sim cs (cleanKey t0.account_name) ∧
         (bestTarget sim cs (buildIndex ts) b bt).2 = some t0 ∧
         b < sim cs (cleanKey t0.account_name) ∧
         ∀ t ∈ l1, sim cs (cleanKey t.account_name) <
           sim cs (cleanKey t0.account_name))) := by
  intro ts
  induction ts with
  | nil =>
    intro b bt
    refine ⟨by simp, le_refl b, Or.inl ⟨rfl, by simp⟩⟩
  | cons t ts ih =>
    intro b bt
    simp only [buildIndex, List.map_cons] at *
    simp only [bestTarget]
    by_cases hbs : b < sim cs (cleanKey t.account_name)
    · simp only [hbs, if_true]
      obtain ⟨g1, g2, g3⟩ := ih (sim cs (cleanKey t.account_name)) (some t)
      refine ⟨?_, le_of_lt (lt_of_lt_of_le hbs g2), ?_⟩
      · intro q hq
        rcases List.mem_cons.mp hq with hq | hq
        · exact hq ▸ g2
        · exact g1 q hq
      · rcases g3 with ⟨heq, hall⟩ | ⟨l1, t0, l2, hdec, h1, h2, h3, h4⟩
        · refine Or.inr ⟨[], t, ts, rfl, ?_, ?_, hbs, by simp⟩
          · rw [heq]
          · rw [heq]
        · refine Or.inr ⟨t :: l1, t0, l2, by rw [hdec]; rfl, h1, h2,
            lt_trans hbs h3, ?_⟩
          intro q hq
          rcases List.mem_cons.mp hq with hq | hq
          · exact hq ▸ h3
          · exact h4 q hq
    · simp only [hbs, if_false]
      obtain ⟨g1, g2, g3⟩ := ih b bt
      have hle : sim cs (cleanKey t.account_name) ≤ b := le_of_not_lt hbs
      refine ⟨?_, g2, ?_⟩
      · intro q hq
        rcases List.mem_cons.mp hq with hq | hq
        · exact hq ▸ le_trans hle g2
        · exact g1 q hq
      · rcases g3 with ⟨heq, hall⟩ | ⟨l1, t0, l2, hdec, h1, h2, h3, h4⟩
        · refine Or.inl ⟨heq, ?_⟩
          intro q hq
          rcases List.mem_cons.mp hq with hq | hq
          · exact hq ▸ hle
          · exact hall q hq
        · refine Or.inr ⟨t :: l1, t0, l2, by rw [hdec]; rfl, h1, h2, h3, ?_⟩
          intro q hq
          rcases List.mem_cons.mp hq with hq | hq
          · exact hq ▸ lt_of_le_of_lt hle h3
          · exact h4 q hq

/-- C4 — Fuzzy path with threshold and deterministic tie-break: for a
source with no exact clean-key match and a similarity function in the
library's documented range (scores are never negative), a MatchRecord is
emitted iff some target reaches the threshold (equality included); the
emitted record carries the maximum score over all targets, and its target
is the first target in target order attaining that maximum (every earlier
target scores strictly less). -/
theorem fuzzy_threshold_first_best (sim : String → String → Rat) (thr : Rat)
    (ts : List Account) (s : Account)
    (hsim : ∀ a b, 0 ≤ sim a b)
    (h : ¬ ∃ t ∈ ts, cleanKey t.account_name = cleanKey s.account_name) :
    ((matchSource sim thr ts s).isSome = true ↔
      ∃ t ∈ ts, thr ≤ sim (cleanKey s.account_name) (cleanKey t.account_name)) ∧
    ∀ m, matchSource sim thr ts s = some m →
      m.source_account = s ∧ thr ≤ m.match_score ∧
      (∀ t ∈ ts, sim (cleanKey s.account_name) (cleanKey t.account_name) ≤
        m.match_score) ∧
      ∃ l1 l2, ts = l1 ++ m.target_account :: l2 ∧
        sim (cleanKey s.account_name) (cleanKey m.target_account.account_name) =
          m.match_score ∧
        ∀ t ∈ l1, sim (cleanKey s.account_name) (cleanKey t.account_name) <
          m.match_score := by
  have hnone : dictGet (buildIndex ts) (cleanKey s.account_name) = Option.none := by
    rw [dictGet_buildIndex, List.getLast?_eq_none_iff, List.filter_eq_nil_iff]
    intro t ht
    simp only [beq_iff_eq]
    exact fun hc => h ⟨t, ht, hc⟩
  obtain ⟨g1, g2, g3⟩ := bestTarget_spec sim (cleanKey s.account_name) ts (-1) Option.none
  rcases g3 with ⟨heq, hall⟩ | ⟨l1, t0, l2, hdec, h1, h2, h3, h4⟩
  · have hms : matchSource sim thr ts s = Option.none := by
      simp only [matchSource]
      rw [hnone, heq]
    constructor
    · rw [hms]
      simp only [Option.isSome_none, Bool.false_eq_true, false_iff]
      rintro ⟨t, ht, hthr⟩
      have h0 : (0 : Rat) ≤ sim (cleanKey s.account_name) (cleanKey t.account_name) :=
        hsim _ _
      have hneg := hall t ht
      linarith
    · intro m hm
      rw [hms] at hm
      exact absurd hm (by simp)
  · have hpair : bestTarget sim (cleanKey s.account_name) (buildIndex ts) (-1) Option.none =
        (sim (cleanKey s.account_name) (cleanKey t0.account_name), some t0) := by
      rw [Prod.ext_iff]
      exact ⟨h1, h2⟩
    have hms : matchSource sim thr ts s =
        if thr ≤ sim (cleanKey s.account_name) (cleanKey t0.account_name) then
          some ⟨s, t0, sim (cleanKey s.account_name) (cleanKey t0.account_name),
                cleanKey s.account_name, pyStrip (stripPipes t0.account_name)⟩
        else Option.none := by
      simp only [matchSource]
      rw [hnone, hpair]
    have ht0mem : t0 ∈ ts := by
      rw [hdec]
      exact List.mem_append.mpr (Or.inr (List.mem_cons_self t0 l2))
    constructor
    · rw [hms]
      by_cases hthr : thr ≤ sim (cleanKey s.account_name) (cleanKey t0.account_name)
      · simp only [hthr, if_true, Option.isSome_some, true_iff]
        exact ⟨t0, ht0mem, hthr⟩
      · simp only [hthr, if_false, Option.isSome_none, Bool.false_eq_true, false_iff]
        rintro ⟨t, ht, htthr⟩
        have := g1 t ht
        rw [h1] at this
        exact hthr (le_trans htthr this)
    · intro m hm
      rw [hms] at hm
      by_cases hthr : thr ≤ sim (cleanKey s.account_name) (cleanKey t0.account_name)
      · rw [if_pos hthr] at hm
        obtain rfl := (Option.some_inj.mp hm).symm
        refine ⟨rfl, hthr, ?_, l1, l2, hdec, rfl, ?_⟩
        · intro t ht
          have := g1 t ht
          rw [h1] at this
          exact this
        · intro t ht
          exact h4 t ht
      · rw [if_neg hthr] at hm
        exact absurd hm (by simp)

/-- Witness data for C4: a constant similarity function at exactly the
threshold, so both targets tie and the boundary case is exercised. -/
def wSimConst : String → String → Rat := fun _ _ => 80

def wFuzzySrc : Account := ⟨1, 2, "Receivables", [CellVal.none, CellVal.none]⟩

def wFuzzyT1 : Account := ⟨1, 2, "Trade debtors", [CellVal.num 1, CellVal.num 2]⟩

def wFuzzyT2 : Account := ⟨2, 3, "Trade creditors", [CellVal.num 3, CellVal.num 4]⟩

/-- Witness for C4: both targets score exactly 80 against the source under
`wSimConst`, the threshold-equal score is matched, and the first target in
order wins the tie. -/
theorem fuzzy_threshold_first_best_witness :
    (¬ ∃ t ∈ [wFuzzyT1, wFuzzyT2],
        cleanKey t.account_name = cleanKey wFuzzySrc.account_name) ∧
    (((matchSource wSimConst 80 [wFuzzyT1, wFuzzyT2] wFuzzySrc).isSome = true ↔
      ∃ t ∈ [wFuzzyT1, wFuzzyT2],
        (80 : Rat) ≤ wSimConst (cleanKey wFuzzySrc.account_name)
          (cleanKey t.account_name)) ∧
     ∀ m, matchSource wSimConst 80 [wFuzzyT1, wFuzzyT2] wFuzzySrc = some m →
      m.source_account = wFuzzySrc ∧ (80 : Rat) ≤ m.match_score ∧
      (∀ t ∈ [wFuzzyT1, wFuzzyT2],
        wSimConst (cleanKey wFuzzySrc.account_name) (cleanKey t.account_name) ≤
          m.match_score) ∧
      ∃ l1 l2, [wFuzzyT1, wFuzzyT2] = l1 ++ m.target_account :: l2 ∧
        wSimConst (cleanKey wFuzzySrc.account_name)
            (cleanKey m.target_account.account_name) = m.match_score ∧
        ∀ t ∈ l1, wSimConst (cleanKey wFuzzySrc.account_name)
            (cleanKey t.account_name) < m.match_score) ∧
    matchSource wSimConst 80 [wFuzzyT1, wFuzzyT2] wFuzzySrc =
      some ⟨wFuzzySrc, wFuzzyT1, 80, cleanKey wFuzzySrc.account_name,
            pyStrip (stripPipes wFuzzyT1.account_name)⟩ :=
  ⟨by decide,
   fuzzy_threshold_first_best wSimConst 80 [wFuzzyT1, wFuzzyT2] wFuzzySrc
     (fun _ _ => by norm_num [wSimConst]) (by decide),
   by decide⟩

/-! ## Lemmas: extraction -/

/-- A row record produced by `extractRow` carries its row number, a
successful name read, and a false skip condition. -/
lemma extractRow_ok_some {sheet : Sheet} {acol : Int} {acols : List Int}
    {row : Nat} {a : Account}
    (h : extractRow sheet acol acols row = .ok (some a)) :
    a.excel_row = row ∧
    ∃ v, sheet.cellVal (cellAddr acol row) = .ok v ∧
      skipRow sheet (cellAddr acol row) v = false := by
  simp only [extractRow] at h
  cases hv : sheet.cellVal (cellAddr acol row) with
  | error e =>
    simp only [hv] at h
    exact Except.noConfusion h
  | ok v =>
    simp only [hv] at h
    by_cases hs : skipRow sheet (cellAddr acol row) v
    · rw [if_pos hs] at h
      exact absurd h (by simp)
    · rw [if_neg hs] at h
      cases hm : acols.mapM (readAmount sheet row) with
      | error e =>
        simp only [hm] at h
        exact Except.noConfusion h
      | ok amounts =>
        simp only [hm, Except.ok.injEq, Option.some.injEq] at h
        exact ⟨by rw [← h], v, rfl, Bool.eq_false_iff.mpr hs⟩

/-- A row whose name read succeeds and whose skip condition is false yields
a record, provided the row does not abort on an amount read. -/
lemma extractRow_some_of {sheet : Sheet} {acol : Int} {acols : List Int}
    {row : Nat} {v : CellVal}
    (hv : sheet.cellVal (cellAddr acol row) = .ok v)
    (hskip : skipRow sheet (cellAddr acol row) v = false)
    (hne : extractRow sheet acol acols row ≠ .error ()) :
    ∃ a, extractRow sheet acol acols row = .ok (some a) := by
  simp only [extractRow, hv, hskip, Bool.false_eq_true, if_false] at hne ⊢
  cases hm : acols.mapM (readAmount sheet row) with
  | error e =>
    cases e
    simp only [hm] at hne
    exact absurd rfl hne
  | ok amounts =>
    simp only [hm]
    exact ⟨_, rfl⟩

/-- When the whole loop succeeds, no row in its range aborted. -/
lemma extractRows_ok_no_error {sheet : Sheet} {acol : Int} {acols : List Int} :
    ∀ k start l, extractRows sheet acol acols start k = .ok l →
      ∀ r, start ≤ r → r < start + k →
        extractRow sheet acol acols r ≠ .error () := by
  intro k
  induction k with
  | zero => intro start l _ r h1 h2; omega
  | succ k ih =>
    intro start l h r h1 h2
    simp only [extractRows] at h
    cases he : extractRow sheet acol acols start with
    | error e =>
      simp only [he] at h
      exact Except.noConfusion h
    | ok ro =>
      simp only [he] at h
      cases hrest : extractRows sheet acol acols (start+1) k with
      | error e =>
        simp only [hrest] at h
        exact Except.noConfusion h
      | ok rest =>
        by_cases hr : r = start
        · subst hr; rw [he]; simp
        · exact ih (start+1) rest hrest r (by omega) (by omega)

/-- Membership in a successful loop result, by row number: exactly the rows
in range whose `extractRow` yields a record. -/
lemma extractRows_mem {sheet : Sheet} {acol : Int} {acols : List Int} :
    ∀ k start l, extractRows sheet acol acols start k = .ok l →
      ∀ r, (∃ a ∈ l, a.excel_row = r) ↔
        (start ≤ r ∧ r < start + k ∧
         ∃ a, extractRow sheet acol acols r = .ok (some a)) := by
  intro k
  induction k with
  | zero =>
    intro start l h r
    simp only [extractRows, Except.ok.injEq] at h
    subst h
    simp only [List.not_mem_nil, false_and, exists_false, false_iff, not_and]
    intro h1 h2
    omega
  | succ k ih =>
    intro start l h r
    simp only [extractRows] at h
    cases he : extractRow sheet acol acols start with
    | error e =>
      simp only [he] at h
      exact Except.noConfusion h
    | ok ro =>
      simp only [he] at h
      cases hrest : extractRows sheet acol acols (start+1) k with
      | error e =>
        simp only [hrest] at h
        exact Except.noConfusion h
      | ok rest =>
        simp only [hrest] at h
        have hmem := ih (start+1) rest hrest
        cases ro with
        | some a =>
          have ha : a.excel_row = start := (extractRow_ok_some he).1
          simp only [Except.ok.injEq] at h
          subst h
          constructor
          · rintro ⟨x, hx, hxr⟩
            rcases List.mem_cons.mp hx with rfl | hx
            · refine ⟨by omega, by omega, x, ?_⟩
              rw [← hxr, ha]
              exact he
            · have hh := (hmem r).mp ⟨x, hx, hxr⟩
              exact ⟨by omega, by omega, hh.2.2⟩
          · rintro ⟨h1, h2, x, hx⟩
            by_cases hr : r = start
            · subst hr
              exact ⟨a, List.mem_cons_self a rest, ha⟩
            · obtain ⟨y, hy, hyr⟩ := (hmem r).mpr ⟨by omega, by omega, x, hx⟩
              exact ⟨y, List.mem_cons_of_mem a hy, hyr⟩
        | none =>
          simp only [Except.ok.injEq] at h
          subst h
          constructor
          · rintro ⟨x, hx, hxr⟩
            have hh := (hmem r).mp ⟨x, hx, hxr⟩
            exact ⟨by omega, by omega, hh.2.2⟩
          · rintro ⟨h1, h2, x, hx⟩
            by_cases hr : r = start
            · subst hr
              rw [he] at hx
              exact absurd hx (by simp)
            · exact (hmem r).mpr ⟨by omega, by omega, x, hx⟩

/-- The skip condition of lines 185-191 spelled out: a row is kept iff its
name cell is non-`None`, non-blank after stripping, not bold, a string of
raw length exceeding 5, and not starting with `'^'`. -/
lemma skipRow_eq_false_iff {sheet : Sheet} {addr : String} {v : CellVal} :
    skipRow sheet addr v = false ↔
      (v ≠ CellVal.none ∧ pyStrip v.pyStr ≠ "" ∧
       is_cell_bold sheet addr = false ∧ v.isStr = true ∧
       5 < v.strLen ∧ v.caret = false) := by
  simp only [skipRow, Bool.or_eq_false_iff, beq_eq_false_iff_ne, ne_eq,
    Bool.not_eq_false', decide_eq_false_iff_not, Nat.not_le]
  tauto

/-- C2 amended — Row inclusion policy of `extract_accounts_from_sheet`: on
a run whose row loop completes without a raising read, a row is included
iff it is in the scanned range and its account-name cell value is present
(non-`None`), non-empty after trimming, not bold, textual, of **raw
(untrimmed) length** strictly greater than 5, and not starting with `'^'`
(the conditions are tested in this order and the first failing one decides;
the source tests `len(name)` on the raw value, not the trimmed one). -/
theorem row_inclusion_policy (sheet : Sheet) (acol : Int) (acols : List Int)
    (srow erow : Option Nat) (l : List Account) (r : Nat)
    (hu : sheet.used = true)
    (hok : extractRows sheet acol acols (rowStart srow)
      (rowEnd sheet erow + 1 - rowStart srow) = .ok l) :
    (∃ a ∈ extract_accounts_from_sheet sheet acol acols srow erow,
        a.excel_row = r) ↔
      (rowStart srow ≤ r ∧ r ≤ rowEnd sheet erow ∧
       ∃ v, sheet.cellVal (cellAddr acol r) = .ok v ∧
         (v ≠ CellVal.none ∧ pyStrip v.pyStr ≠ "" ∧
          is_cell_bold sheet (cellAddr acol r) = false ∧ v.isStr = true ∧
          5 < v.strLen ∧ v.caret = false)) := by
  have hex : extract_accounts_from_sheet sheet acol acols srow erow = l := by
    unfold extract_accounts_from_sheet
    simp only [hu, Bool.not_true, Bool.false_eq_true, if_false]
    by_cases hre : rowEnd sheet erow < rowStart srow
    · have hz : rowEnd sheet erow + 1 - rowStart srow = 0 := by omega
      rw [hz] at hok
      simp only [extractRows, Except.ok.injEq] at hok
      rw [if_pos hre]
      exact hok
    · rw [if_neg hre, hok]
  rw [hex, extractRows_mem _ _ _ hok r]
  constructor
  · rintro ⟨h1, h2, a, ha⟩
    obtain ⟨_, v, hv, hskip⟩ := extractRow_ok_some ha
    exact ⟨h1, by omega, v, hv, skipRow_eq_false_iff.mp hskip⟩
  · rintro ⟨h1, h2, v, hv, hcond⟩
    have hne := extractRows_ok_no_error _ _ _ hok r h1 (by omega)
    obtain ⟨a, ha⟩ := extractRow_some_of hv (skipRow_eq_false_iff.mpr hcond) hne
    exact ⟨h1, by omega, a, ha⟩

/-- Witness data for C2: a sheet whose row 2 holds a 7-character non-bold
name. -/
def wPolicySheet : Sheet :=
  ⟨true, 2,
   fun addr => if addr = "A2" then .ok (CellVal.str "abcdefg") else .ok CellVal.none,
   fun _ => .ok false⟩

/-- Witness for C2 at row 2 of the witness sheet. -/
theorem row_inclusion_policy_witness :
    wPolicySheet.used = true ∧
    extractRows wPolicySheet 0 [1, 3] (rowStart Option.none)
      (rowEnd wPolicySheet Option.none + 1 - rowStart Option.none) =
      .ok [⟨1, 2, "abcdefg", [CellVal.none, CellVal.none]⟩] ∧
    ((∃ a ∈ extract_accounts_from_sheet wPolicySheet 0 [1, 3] Option.none Option.none,
        a.excel_row = 2) ↔
      (rowStart Option.none ≤ 2 ∧ 2 ≤ rowEnd wPolicySheet Option.none ∧
       ∃ v, wPolicySheet.cellVal (cellAddr 0 2) = .ok v ∧
         (v ≠ CellVal.none ∧ pyStrip v.pyStr ≠ "" ∧
          is_cell_bold wPolicySheet (cellAddr 0 2) = false ∧ v.isStr = true ∧
          5 < v.strLen ∧ v.caret = false))) :=
  ⟨rfl, rfl,
   row_inclusion_policy wPolicySheet 0 [1, 3] Option.none Option.none
     [⟨1, 2, "abcdefg", [CellVal.none, CellVal.none]⟩] 2 rfl rfl⟩

/-- Counterexample data for C2: row 2 holds `"abcd  "`, a 6-character raw
string whose trimmed length is only 4. -/
def wUntrimmedSheet : Sheet :=
  ⟨true, 2,
   fun addr => if addr = "A2" then .ok (CellVal.str "abcd  ") else .ok CellVal.none,
   fun _ => .ok false⟩

/-- C2 counterexample — the claim requires the *trimmed* length to exceed
5, but the code tests the raw length: the row whose value `"abcd  "` trims
to 4 characters is nevertheless included in the extraction result. -/
theorem row_inclusion_untrimmed_counterexample :
    (∃ a ∈ extract_accounts_from_sheet wUntrimmedSheet 0 [1, 3]
        Option.none Option.none, a.excel_row = 2) ∧
    wUntrimmedSheet.cellVal (cellAddr 0 2) = .ok (CellVal.str "abcd  ") ∧
    (pyStrip "abcd  ").length ≤ 5 ∧
    is_cell_bold wUntrimmedSheet (cellAddr 0 2) = false := by
  refine ⟨⟨⟨1, 2, "abcd  ", [CellVal.none, CellVal.none]⟩, ?_, rfl⟩, rfl, by decide, rfl⟩
  decide

/-- If some scanned row's name-cell read raises, the loop aborts. -/
lemma extractRows_error_of_read_error {sheet : Sheet} {acol : Int} {acols : List Int} :
    ∀ k start, (∃ r, start ≤ r ∧ r < start + k ∧
        sheet.cellVal (cellAddr acol r) = .error ()) →
      extractRows sheet acol acols start k = .error () := by
  intro k
  induction k with
  | zero =>
    rintro start ⟨r, h1, h2, _⟩
    omega
  | succ k ih =>
    rintro start ⟨r, h1, h2, hr⟩
    simp only [extractRows]
    cases he : extractRow sheet acol acols start with
    | error e => cases e; rfl
    | ok ro =>
      have hrs : r ≠ start := by
        intro hc
        subst hc
        simp only [extractRow, hr] at he
        exact Except.noConfusion he
      rw [ih (start+1) ⟨r, by omega, by omega, hr⟩]

/-- C9 amended — Error semantics of `extract_accounts_from_sheet`: the
function itself never raises, but it does **not** recover per row.  A
raising read of any scanned name cell aborts the whole run through the
function-level `try`, returning `[]` and discarding every other row's
record; only a failing *boldness* check is recovered locally, and it is
recovered as "not bold" — the row is then processed normally, not
skipped. -/
theorem extraction_error_semantics (sheet : Sheet) (acol : Int)
    (acols : List Int) (srow erow : Option Nat) :
    ((∃ r, rowStart srow ≤ r ∧ r ≤ rowEnd sheet erow ∧
        sheet.cellVal (cellAddr acol r) = .error ()) →
      extract_accounts_from_sheet sheet acol acols srow erow = []) ∧
    (∀ addr, sheet.cellBold addr = .error () →
      is_cell_bold sheet addr = false) := by
  constructor
  · rintro ⟨r, h1, h2, hr⟩
    unfold extract_accounts_from_sheet
    cases hu : sheet.used with
    | false => rfl
    | true =>
      have hre : ¬(rowEnd sheet erow < rowStart srow) := by omega
      simp only [Bool.not_true, Bool.false_eq_true, if_false, if_neg hre]
      rw [extractRows_error_of_read_error
        (rowEnd sheet erow + 1 - rowStart srow) (rowStart srow)
        ⟨r, h1, by omega, hr⟩]
  · intro addr hb
    simp only [is_cell_bold, hb]

/-- Counterexample data for C9: row 2's name read raises; row 3 qualifies. -/
def wAbortSheet : Sheet :=
  ⟨true, 3,
   fun addr =>
     if addr = "A2" then .error ()
     else if addr = "A3" then .ok (CellVal.str "abcdef")
     else if addr = "B3" then .ok (CellVal.num 5)
     else if addr = "D3" then .ok (CellVal.num 6)
     else .ok CellVal.none,
   fun _ => .ok false⟩

/-- Counterexample data for C9: row 2's boldness check raises on a
qualifying name. -/
def wBoldErrSheet : Sheet :=
  ⟨true, 2,
   fun addr => if addr = "A2" then .ok (CellVal.str "abcdef") else .ok CellVal.none,
   fun addr => if addr = "A2" then .error () else .ok false⟩

/-- C9 counterexample — on `wAbortSheet` the single bad read of row 2
makes extraction return `[]`, discarding row 3 although row 3 on its own
yields a record (so the claim's "skips the offending row and returns the
remaining qualifying rows" fails); and on `wBoldErrSheet` the row whose
format check fails is *included*, not skipped. -/
theorem extraction_error_counterexample :
    extract_accounts_from_sheet wAbortSheet 0 [1, 3] Option.none Option.none = [] ∧
    wAbortSheet.cellVal (cellAddr 0 2) = .error () ∧
    extractRow wAbortSheet 0 [1, 3] 3 =
      .ok (some ⟨2, 3, "abcdef", [CellVal.num 5, CellVal.num 6]⟩) ∧
    extract_accounts_from_sheet wBoldErrSheet 0 [1, 3] Option.none Option.none =
      [⟨1, 2, "abcdef", [CellVal.none, CellVal.none]⟩] ∧
    wBoldErrSheet.cellBold (cellAddr 0 2) = .error () := by
  exact ⟨rfl, rfl, rfl, rfl, rfl⟩

/-- Witness for C9 on the aborting sheet: the amended statement applied at
row 2 yields the empty extraction, and the failing boldness check on
`wBoldErrSheet` reads back as not bold. -/
theorem extraction_error_semantics_witness :
    (∃ r, rowStart Option.none ≤ r ∧ r ≤ rowEnd wAbortSheet Option.none ∧
      wAbortSheet.cellVal (cellAddr 0 r) = .error ()) ∧
    extract_accounts_from_sheet wAbortSheet 0 [1, 3] Option.none Option.none = [] ∧
    is_cell_bold wBoldErrSheet (cellAddr 0 2) = false :=
  ⟨⟨2, by decide, by decide, rfl⟩,
   (extraction_error_semantics wAbortSheet 0 [1, 3] Option.none Option.none).1
     ⟨2, by decide, by decide, rfl⟩,
   (extraction_error_semantics wBoldErrSheet 0 [1, 3] Option.none Option.none).2
     (cellAddr 0 2) rfl⟩

/-! ## Lemmas: the write loop and the bulk-mutation scope -/

/-- One loop iteration only writes cells of its own source row. -/
lemma applyMatch_other_row (cur prior : Int) (g : Grid) (m : MatchRecord)
    (r : Nat) (c : Int) (h : m.source_account.excel_row ≠ r) :
    applyMatch cur prior g m r c = g r c := by
  unfold applyMatch writeCell
  by_cases h1 : amtGet m.target_account.amounts 0 = CellVal.none <;>
    by_cases h2 : amtGet m.target_account.amounts 1 = CellVal.none <;>
      simp [h1, h2, Ne.symm h]

/-- The loop leaves every cell of rows it never writes unchanged. -/
lemma writeMatches_frame (cur prior : Int) :
    ∀ (ms : List MatchRecord) (g : Grid) (r : Nat) (c : Int),
      (∀ m ∈ ms, m.source_account.excel_row ≠ r) →
      writeMatches cur prior g ms r c = g r c := by
  intro ms
  induction ms with
  | nil => intro g r c _; rfl
  | cons m0 ms ih =>
    intro g r c h
    show writeMatches cur prior (applyMatch cur prior g m0) ms r c = g r c
    rw [ih (applyMatch cur prior g m0) r c
      (fun m hm => h m (List.mem_cons_of_mem m0 hm))]
    exact applyMatch_other_row cur prior g m0 r c (h m0 (List.mem_cons_self m0 ms))

/-- C5 — Per-field write skipping: in the write loop, with the distinct
current/prior columns the column mapping guarantees and the distinct
source rows extraction produces, a match whose target `amount_2`
(prior-year) is absent leaves the source row's prior-year cell exactly as
it was, and symmetrically a match whose target `amount_1` (current-year)
is absent leaves the current-year cell unchanged — an absent amount is
never written as a blank or zero. -/
theorem missing_amount_write_skip (cur prior : Int) (g : Grid)
    (ms : List MatchRecord) (m : MatchRecord)
    (hnd : (ms.map (fun x => x.source_account.excel_row)).Nodup)
    (hm : m ∈ ms) (hcp : cur ≠ prior) :
    (amtGet m.target_account.amounts 1 = CellVal.none →
      writeMatches cur prior g ms m.source_account.excel_row prior =
        g m.source_account.excel_row prior) ∧
    (amtGet m.target_account.amounts 0 = CellVal.none →
      writeMatches cur prior g ms m.source_account.excel_row cur =
        g m.source_account.excel_row cur) := by
  induction ms generalizing g with
  | nil => exact absurd hm (List.not_mem_nil m)
  | cons m0 ms ih =>
    rw [List.map_cons, List.nodup_cons] at hnd
    obtain ⟨hnotin, hnd2⟩ := hnd
    rcases List.mem_cons.mp hm with rfl | hmem
    · have hframe : ∀ c : Int,
          writeMatches cur prior (applyMatch cur prior g m) ms
            m.source_account.excel_row c =
          applyMatch cur prior g m m.source_account.excel_row c := by
        intro c
        refine writeMatches_frame cur prior ms _ _ c (fun x hx hc => hnotin ?_)
        rw [← hc]
        exact List.mem_map.mpr ⟨x, hx, rfl⟩
      constructor
      · intro h2
        show writeMatches cur prior (applyMatch cur prior g m) ms _ prior = _
        rw [hframe prior]
        unfold applyMatch writeCell
        rw [h2]
        simp only [if_pos rfl]
        by_cases h1 : amtGet m.target_account.amounts 0 = CellVal.none
        · simp [h1]
        · have hpc : prior ≠ cur := Ne.symm hcp
          simp [h1, hpc]
      · intro h1
        show writeMatches cur prior (applyMatch cur prior g m) ms _ cur = _
        rw [hframe cur]
        unfold applyMatch writeCell
        rw [h1]
        simp only [if_pos rfl]
        by_cases h2 : amtGet m.target_account.amounts 1 = CellVal.none
        · simp [h2]
        · simp [h2, hcp]
    · have hr0 : m0.source_account.excel_row ≠ m.source_account.excel_row := by
        intro hc
        exact hnotin (hc ▸ List.mem_map.mpr ⟨m, hmem, rfl⟩)
      have hstep : ∀ c : Int,
          applyMatch cur prior g m0 m.source_account.excel_row c =
            g m.source_account.excel_row c :=
        fun c => applyMatch_other_row cur prior g m0 _ c hr0
      obtain ⟨ih1, ih2⟩ := ih (applyMatch cur prior g m0) hnd2 hmem
      constructor
      · intro h2
        show writeMatches cur prior (applyMatch cur prior g m0) ms _ prior = _
        rw [ih1 h2]
        exact hstep prior
      · intro h1
        show writeMatches cur prior (applyMatch cur prior g m0) ms _ cur = _
        rw [ih2 h1]
        exact hstep cur

/-- Witness data for C5: one match on row 2 whose prior-year amount is
absent, written over a grid holding 7 everywhere. -/
def wSkipMatch : MatchRecord :=
  ⟨⟨1, 2, "source acct", [CellVal.none, CellVal.none]⟩,
   ⟨1, 2, "target acct", [CellVal.num 5, CellVal.none]⟩,
   100, "source acct", "target acct"⟩

def wSkipGrid : Grid := fun _ _ => CellVal.num 7

/-- Witness for C5: applying the loop to the single witness match writes
the current-year cell but leaves the prior-year cell of row 2 unchanged. -/
theorem missing_amount_write_skip_witness :
    ([wSkipMatch].map (fun x => x.source_account.excel_row)).Nodup ∧
    wSkipMatch ∈ [wSkipMatch] ∧ (2 : Int) ≠ 4 ∧
    writeMatches 2 4 wSkipGrid [wSkipMatch] 2 4 = wSkipGrid 2 4 ∧
    writeMatches 2 4 wSkipGrid [wSkipMatch] 2 4 = CellVal.num 7 :=
  ⟨by decide, by decide, by decide,
   (missing_amount_write_skip 2 4 wSkipGrid [wSkipMatch] wSkipMatch
     (by decide) (by decide) (by decide)).1 rfl,
   by decide⟩

/-- C6 — The bulk-mutation scope restores the three suspended application
settings (screen updating, calculation mode, alert display) to their
captured previous values on every exit path — including a body that ends
in an error — and therefore `update_trial_balance` always returns with the
application settings it started with. -/
theorem bulk_scope_restores_settings (app0 : AppState)
    (body : Grid → Grid × Except Unit Nat) (g : Grid)
    (sim : String → String → Rat) (thr : Rat) (wb : String → Sheet)
    (g0 : Grid) (tus cs : String) (tuc cc : ColMap) (tur cr : RowRange) :
    ((bulkScope app0 body g).1.screen_updating = app0.screen_updating ∧
     (bulkScope app0 body g).1.calculation = app0.calculation ∧
     (bulkScope app0 body g).1.display_alerts = app0.display_alerts) ∧
    ((update_trial_balance sim thr wb g0 app0 tus cs tuc cc tur cr).app.screen_updating
        = app0.screen_updating ∧
     (update_trial_balance sim thr wb g0 app0 tus cs tuc cc tur cr).app.calculation
        = app0.calculation ∧
     (update_trial_balance sim thr wb g0 app0 tus cs tuc cc tur cr).app.display_alerts
        = app0.display_alerts) := by
  have hscope : ∀ (b : Grid → Grid × Except Unit Nat) (gg : Grid),
      (bulkScope app0 b gg).1.screen_updating = app0.screen_updating ∧
      (bulkScope app0 b gg).1.calculation = app0.calculation ∧
      (bulkScope app0 b gg).1.display_alerts = app0.display_alerts := by
    intro b gg
    obtain ⟨s, c, a⟩ := app0
    cases s <;> cases c <;> cases a <;>
      simp [bulkScope]
  constructor
  · exact hscope body g
  · simp only [update_trial_balance, updCorrectAccounts]
    exact hscope _ g0

/-! ## Lemmas: new accounts -/

/-- Membership in the new-accounts list: a reference account is kept iff
its `lower().strip()` name is not the `lower().strip()` name of any match
target. -/
lemma computeNewAccounts_mem (ms : List MatchRecord) (l : List Account)
    (c : Account) :
    c ∈ computeNewAccounts ms l ↔
      (c ∈ l ∧ ¬ ∃ m ∈ ms,
        lowerStrip m.target_account.account_name = lowerStrip c.account_name) := by
  unfold computeNewAccounts
  constructor
  · intro h
    obtain ⟨h1, h2⟩ := List.mem_filter.mp h
    refine ⟨h1, ?_⟩
    rintro ⟨m, hm, he⟩
    have hc : (ms.map (fun m => lowerStrip m.target_account.account_name)).contains
        (lowerStrip c.account_name) = true :=
      List.contains_iff_exists_mem_beq.mpr
        ⟨lowerStrip m.target_account.account_name,
         List.mem_map.mpr ⟨m, hm, rfl⟩, beq_iff_eq.mpr he.symm⟩
    rw [hc] at h2
    exact absurd h2 (by simp)
  · rintro ⟨h1, h2⟩
    refine List.mem_filter.mpr ⟨h1, ?_⟩
    cases hc : (ms.map (fun m => lowerStrip m.target_account.account_name)).contains
        (lowerStrip c.account_name) with
    | false => rfl
    | true =>
      obtain ⟨a, hamem, habeq⟩ := List.contains_iff_exists_mem_beq.mp (by rw [hc])
      obtain ⟨m, hm, rfl⟩ := List.mem_map.mp hamem
      exact absurd ⟨m, hm, (beq_iff_eq.mp habeq).symm⟩ h2

/-- C1 amended — New-accounts membership on every run of
`update_trial_balance`: the returned `new_accounts` holds exactly those
reference (correct-sheet) accounts whose **`lower().strip()` name** (the
marker character `'|'` is *not* stripped here, unlike the matcher's clean
key) differs from the `lower().strip()` name of every emitted match
target. -/
theorem new_accounts_membership (sim : String → String → Rat) (thr : Rat)
    (wb : String → Sheet) (g0 : Grid) (app0 : AppState)
    (tus cs : String) (tuc cc : ColMap) (tur cr : RowRange) (c : Account) :
    c ∈ (update_trial_balance sim thr wb g0 app0 tus cs tuc cc tur cr).new_accounts ↔
      (c ∈ updCorrectAccounts wb cs cc cr ∧
       ¬ ∃ m ∈ (update_trial_balance sim thr wb g0 app0 tus cs tuc cc tur cr).matchList,
         lowerStrip m.target_account.account_name = lowerStrip c.account_name) :=
  computeNewAccounts_mem _ _ c

/-- Counterexample data for C1: the to-update sheet holds the single
account `"A|BCDEF"`. -/
def wPipeUpdSheet : Sheet :=
  ⟨true, 2,
   fun addr => if addr = "A2" then .ok (CellVal.str "A|BCDEF") else .ok CellVal.none,
   fun _ => .ok false⟩

/-- Counterexample data for C1: the reference sheet holds `"A|BCDEF"`
(row 2) and `"ABCDEF"` (row 3) — equal clean keys, distinct
`lower().strip()` names. -/
def wPipeRefSheet : Sheet :=
  ⟨true, 3,
   fun addr =>
     if addr = "A2" then .ok (CellVal.str "A|BCDEF")
     else if addr = "B2" then .ok (CellVal.num 10)
     else if addr = "D2" then .ok (CellVal.num 20)
     else if addr = "A3" then .ok (CellVal.str "ABCDEF")
     else if addr = "B3" then .ok (CellVal.num 30)
     else if addr = "D3" then .ok (CellVal.num 40)
     else .ok CellVal.none,
   fun _ => .ok false⟩

def wPipeWb : String → Sheet :=
  fun nm => if nm = "Upd" then wPipeUpdSheet else wPipeRefSheet

def wPipeCols : ColMap := ⟨"A", "B", "D"⟩

def wPipeApp : AppState :=
  ⟨some (CellVal.bool true), some (CellVal.str "automatic"), some (CellVal.bool true)⟩

def wPipeRun : UpdateOutcome :=
  update_trial_balance wSimZero 80 wPipeWb (fun _ _ => CellVal.none) wPipeApp
    "Upd" "Ref" wPipeCols wPipeCols (Option.none, Option.none) (Option.none, Option.none)

/-- C1 counterexample — in the concrete run, the only emitted MatchRecord
targets `"ABCDEF"` (clean key `"abcdef"`), and the reference account
`"A|BCDEF"` has the same clean key `"abcdef"`; the claim therefore
requires it to be excluded from `new_accounts`, yet the run returns it as
the sole new account, because the set difference compares
`lower().strip()` names without stripping `'|'`. -/
theorem new_accounts_clean_key_counterexample :
    wPipeRun.matchList =
      [⟨⟨1, 2, "A|BCDEF", [CellVal.none, CellVal.none]⟩,
        ⟨2, 3, "ABCDEF", [CellVal.num 30, CellVal.num 40]⟩,
        100, "abcdef", "abcdef"⟩] ∧
    wPipeRun.new_accounts =
      [⟨1, 2, "A|BCDEF", [CellVal.num 10, CellVal.num 20]⟩] ∧
    cleanKey "A|BCDEF" = cleanKey "ABCDEF" := by
  refine ⟨?_, ?_, by decide⟩ <;> decide

/-- Witness for C1 (amended): the membership equivalence instantiated at
the counterexample run's surviving reference account. -/
theorem new_accounts_membership_witness :
    (⟨1, 2, "A|BCDEF", [CellVal.num 10, CellVal.num 20]⟩ : Account) ∈
        wPipeRun.new_accounts ↔
      ((⟨1, 2, "A|BCDEF", [CellVal.num 10, CellVal.num 20]⟩ : Account) ∈
          updCorrectAccounts wPipeWb "Ref" wPipeCols (Option.none, Option.none) ∧
       ¬ ∃ m ∈ wPipeRun.matchList,
         lowerStrip m.target_account.account_name = lowerStrip "A|BCDEF") :=
  new_accounts_membership wSimZero 80 wPipeWb (fun _ _ => CellVal.none) wPipeApp
    "Upd" "Ref" wPipeCols wPipeCols (Option.none, Option.none) (Option.none, Option.none)
    ⟨1, 2, "A|BCDEF", [CellVal.num 10, CellVal.num 20]⟩
